import Mathlib

/-!
Shallow embedding of the contact-manager core in `task.py`:
field value types (`Name`, `Phone`, `Birthday`), `Record`, `AddressBook`,
and the birthday-window query `get_upcoming_birthdays`, together with
theorems settling the specification claims about them.

Python strings are modelled as lists of characters (`PyStr`); Python's
`datetime` values produced by `strptime("%d.%m.%Y")` carry a date and a
zero time-of-day, so stored birthdays are modelled as a `Date` (year /
month / day), while "now" (`datetime.now()`) is modelled as a `Date` plus
the time of day in seconds.  Exceptions (`ValueError`) are modelled with
`Except` / `Option`; mutation is modelled by explicit state passing.
-/

set_option maxRecDepth 10000

/-- Python `str` modelled as a list of characters. -/
abbrev PyStr := List Char

/-- ASCII decimal-digit test: the `str.isdigit` test on the characters
relevant to this program (codepoints 48–57, i.e. characters 0–9). -/
def isDigitChar (c : Char) : Bool := 48 ≤ c.toNat && c.toNat ≤ 57

/-- Python `value.isdigit()`: false on the empty string, otherwise true
iff every character is a decimal digit. -/
def pyIsdigit (s : PyStr) : Bool := !s.isEmpty && s.all isDigitChar

/-- Decimal value of a digit string (how `strptime` reads a field): each
character contributes its digit value at its decimal place. -/
def numVal : PyStr → Nat
  | [] => 0
  | c :: t => (c.toNat - 48) * 10 ^ t.length + numVal t

/-! ### Calendar arithmetic (mirrors Python's `datetime`) -/

/-- Gregorian leap-year test, as used by `datetime`. -/
def isLeap (y : Nat) : Bool := y % 4 == 0 && (y % 100 != 0 || y % 400 == 0)

/-- Number of days in month `m` of year `y` (`datetime`'s table). -/
def daysInMonth (y m : Nat) : Nat :=
  if m = 2 then (if isLeap y then 29 else 28)
  else if m = 4 ∨ m = 6 ∨ m = 9 ∨ m = 11 then 30 else 31

/-- A calendar date, as stored inside a Python `datetime` (the embedded
birthdays always have a zero time-of-day component). -/
structure Date where
  year : Nat
  month : Nat
  day : Nat
deriving DecidableEq

/-- Days in year `y` strictly before month `m`. -/
def daysBeforeMonth (y m : Nat) : Nat :=
  ((List.range (m - 1)).map (fun k => daysInMonth y (k + 1))).sum

/-- Proleptic-Gregorian day number of a date (Python's `date.toordinal`:
01.01.0001 has ordinal 1).  Differences of ordinals are differences in
whole days, which is how `datetime` subtraction behaves at midnight. -/
def toOrdinal (d : Date) : Nat :=
  365 * (d.year - 1) + (d.year - 1) / 4 - (d.year - 1) / 100 + (d.year - 1) / 400
    + daysBeforeMonth d.year d.month + d.day

/-! ### Field value types -/

/-- `Phone.validate`: `value.isdigit() and len(value) == 10`. -/
def phone_validate (s : PyStr) : Bool := pyIsdigit s && s.length == 10

/-- The `ValueError` message of `Phone.__init__`. -/
def phoneError : PyStr := "Invalid phone number. Must be 10 digits.".toList

/-- `Phone(value)`: raises `ValueError` unless `validate(value)`, else
stores the string unchanged in `.value`. -/
def mkPhone (s : PyStr) : Except PyStr PyStr :=
  if phone_validate s then Except.ok s else Except.error phoneError

/-- Split a string at every dot (each `'.'` is a separator; the result
always has one more part than there are dots, parts may be empty). -/
def splitDots : PyStr → List PyStr
  | [] => [[]]
  | c :: rest =>
    if c = '.' then [] :: splitDots rest
    else
      match splitDots rest with
      | [] => [[c]]
      | h :: t => (c :: h) :: t

/-- A day/month field of `strptime("%d.%m.%Y")`.  The `%d` regex is
`3[01]|[12]\d|0[1-9]|[1-9]` and the `%m` regex is `1[0-2]|0[1-9]|[1-9]`:
exactly the 1- or 2-character digit strings whose value lies in
`1..mx` (`mx` = 31 resp. 12); zero-padding is accepted, not required. -/
def fieldNum (s : PyStr) (mx : Nat) : Option Nat :=
  if s.all isDigitChar = true ∧ (s.length = 1 ∨ s.length = 2)
      ∧ 1 ≤ numVal s ∧ numVal s ≤ mx then
    some (numVal s)
  else none

/-- The year field of `strptime("%d.%m.%Y")`: `%Y` matches exactly four
digits, and the subsequent `datetime` construction requires
`year ≥ MINYEAR = 1` (so `"0000"` is rejected). -/
def yearNum (s : PyStr) : Option Nat :=
  if s.all isDigitChar = true ∧ s.length = 4 ∧ 1 ≤ numVal s then
    some (numVal s)
  else none

/-- `datetime.strptime(value, "%d.%m.%Y")`: the string must consist of a
day field, a dot, a month field, a dot and a 4-digit year, with no
leftover characters, and the resulting triple must be a real calendar
date (`datetime` validates `1 ≤ day ≤ days_in_month(year, month)`). -/
def birthdayParse (s : PyStr) : Option Date :=
  match splitDots s with
  | [ds, ms, ys] =>
    match fieldNum ds 31, fieldNum ms 12, yearNum ys with
    | some d, some m, some y =>
      if d ≤ daysInMonth y m then some ⟨y, m, d⟩ else none
    | _, _, _ => none
  | _ => none

/-- The `ValueError` message of `Birthday.__init__`. -/
def birthdayError : PyStr := "Invalid date format. Use DD.MM.YYYY".toList

/-- `Birthday(value)`: parses `value` with `strptime("%d.%m.%Y")`, raising
`ValueError` on failure, and stores the parsed date. -/
def mkBirthday (s : PyStr) : Except PyStr Date :=
  match birthdayParse s with
  | some d => Except.ok d
  | none => Except.error birthdayError

/-! ### Record -/

/-- A `Record`: a name, an ordered list of phone values (each `Phone`
object only wraps its `.value` string) and an optional birthday. -/
structure Record where
  name : PyStr
  phones : List PyStr
  birthday : Option Date
deriving DecidableEq

/-- `Record.add_phone`: `self.phones.append(Phone(phone))`.  `Phone(phone)`
is evaluated first; if it raises, the append never runs and the record is
returned as it was at the raise. -/
def addPhoneS (r : Record) (v : PyStr) : Except PyStr Unit × Record :=
  match mkPhone v with
  | Except.error e => (Except.error e, r)
  | Except.ok p => (Except.ok (), { r with phones := r.phones ++ [p] })

/-- `Record.remove_phone`: scan the phone list, remove the first phone
whose `.value` equals the argument, then `break` (so at most one removal;
absent value is a silent no-op). -/
def removePhoneList : List PyStr → PyStr → List PyStr
  | [], _ => []
  | p :: rest, v => if p = v then rest else p :: removePhoneList rest v

/-- `Record.remove_phone` lifted to the record. -/
def removePhone (r : Record) (v : PyStr) : Record :=
  { r with phones := removePhoneList r.phones v }

/-- `Record.edit_phone`: scan the phone list, overwrite the `.value` of the
first phone equal to `old`, then `break`; new value stored unvalidated;
absent value is a silent no-op. -/
def editPhoneList : List PyStr → PyStr → PyStr → List PyStr
  | [], _, _ => []
  | p :: rest, old, nv => if p = old then nv :: rest else p :: editPhoneList rest old nv

/-- `Record.edit_phone` lifted to the record. -/
def editPhone (r : Record) (old nv : PyStr) : Record :=
  { r with phones := editPhoneList r.phones old nv }

/-- `Record.add_birthday`: `self.birthday = Birthday(birthday)`.  The
right-hand side is evaluated first; if it raises, the assignment never
runs and the record is returned as it was at the raise. -/
def addBirthdayS (r : Record) (v : PyStr) : Except PyStr Unit × Record :=
  match birthdayParse v with
  | none => (Except.error birthdayError, r)
  | some d => (Except.ok (), { r with birthday := some d })

/-! ### AddressBook -/

/-- An `AddressBook`: the insertion-ordered key/value pairs of the Python
dict `self.records` (keys are the record names; a dict never holds two
entries with the same key). -/
structure AddressBook where
  records : List (PyStr × Record)
deriving DecidableEq

/-- Dict lookup `d.get(name)`. -/
def dictGet : List (PyStr × Record) → PyStr → Option Record
  | [], _ => none
  | (k, v) :: rest, name => if k = name then some v else dictGet rest name

/-- Dict assignment `d[key] = value`: overwrite in place if the key is
present (keeping its position), otherwise append a new entry. -/
def dictInsert : List (PyStr × Record) → PyStr → Record → List (PyStr × Record)
  | [], k, v => [(k, v)]
  | (k0, v0) :: rest, k, v =>
    if k0 = k then (k, v) :: rest else (k0, v0) :: dictInsert rest k v

/-- Dict deletion `del d[key]`: drop the (unique) entry with that key;
on the list model this drops the first matching entry. -/
def dictDel : List (PyStr × Record) → PyStr → List (PyStr × Record)
  | [], _ => []
  | (k0, v0) :: rest, k =>
    if k0 = k then rest else (k0, v0) :: dictDel rest k

/-- `AddressBook.add_record`: `self.records[record.name.value] = record`. -/
def addRecord (book : AddressBook) (r : Record) : AddressBook :=
  ⟨dictInsert book.records r.name r⟩

/-- `AddressBook.remove_record`: `if name in self.records: del self.records[name]`. -/
def removeRecord (book : AddressBook) (name : PyStr) : AddressBook :=
  if book.records.any (fun p => p.1 = name) then ⟨dictDel book.records name⟩ else book

/-- `AddressBook.find_record`: `self.records.get(name)` (`None` when absent). -/
def findRecord (book : AddressBook) (name : PyStr) : Option Record :=
  dictGet book.records name

/-- `AddressBook.list_records`: the dict's values in iteration order. -/
def listRecords (book : AddressBook) : List Record :=
  book.records.map Prod.snd

/-- `birthday.value.replace(year=y)`: rebuild the datetime with the year
swapped; `datetime` re-validates, raising `ValueError` when the stored
day does not exist in that month of year `y` (a Feb 29 birthday moved to
a non-leap year) or when `y` is outside `MINYEAR..MAXYEAR`. -/
def replaceYear (b : Date) (y : Nat) : Option Date :=
  if 1 ≤ y ∧ y ≤ 9999 ∧ b.day ≤ daysInMonth y b.month then
    some ⟨y, b.month, b.day⟩
  else none

/-- The `next_birthday` computation of `get_upcoming_birthdays` for one
record: substitute the current year; if the result (a midnight datetime)
is strictly before `now` = (`today`, `sec` seconds after midnight), roll
to the next year.  Either `replace` may raise (`none`). -/
def nextBirthdayCode (b : Date) (today : Date) (sec : Nat) : Option Date :=
  match replaceYear b today.year with
  | none => none
  | some nb =>
    if toOrdinal nb * 86400 < toOrdinal today * 86400 + sec then
      replaceYear b (today.year + 1)
    else some nb

/-- `(next_birthday - today).days`: the exact time difference in seconds,
floor-divided by 86400 (Python `timedelta.days` floors). -/
def gapDays (nb today : Date) (sec : Nat) : Int :=
  Int.fdiv ((toOrdinal nb : Int) * 86400 - ((toOrdinal today : Int) * 86400 + (sec : Int))) 86400

/-- The loop of `get_upcoming_birthdays` over the dict's values: skip
records without a birthday, propagate a `ValueError` from `replace`, and
append the record when `0 <= (next_birthday - today).days < days`. -/
def upcomingAux (today : Date) (sec : Nat) (days : Int) : List Record → Option (List Record)
  | [] => some []
  | r :: rest =>
    match r.birthday with
    | none => upcomingAux today sec days rest
    | some b =>
      match nextBirthdayCode b today sec with
      | none => none
      | some nb =>
        match upcomingAux today sec days rest with
        | none => none
        | some tail =>
          if 0 ≤ gapDays nb today sec ∧ gapDays nb today sec < days then
            some (r :: tail)
          else some tail

/-- `AddressBook.get_upcoming_birthdays(days)`, with `datetime.now()`
made explicit as the pair (`today`, `sec` seconds after midnight). -/
def getUpcomingBirthdays (book : AddressBook) (today : Date) (sec : Nat) (days : Int) :
    Option (List Record) :=
  upcomingAux today sec days (listRecords book)

/-! ### State-passing forms of the query operations

The method bodies of `find_record`, `list_records` and
`get_upcoming_birthdays` contain no assignment to `self.records` (and no
call that mutates it), so their translations return the book exactly as
received alongside their result. -/

/-- `find_record` with the post-call state of the book made explicit. -/
def findRecordS (book : AddressBook) (name : PyStr) : Option Record × AddressBook :=
  (findRecord book name, book)

/-- `list_records` with the post-call state of the book made explicit. -/
def listRecordsS (book : AddressBook) : List Record × AddressBook :=
  (listRecords book, book)

/-- `get_upcoming_birthdays` with the post-call state of the book made
explicit (on a `ValueError` the book is likewise untouched). -/
def getUpcomingBirthdaysS (book : AddressBook) (today : Date) (sec : Nat) (days : Int) :
    Option (List Record) × AddressBook :=
  (getUpcomingBirthdays book today sec days, book)

/-! ### Specification-side definitions

These follow the words of the specification, for comparison with the
code-derived definitions above. -/

/-- Modelled from the spec (claim C1's wording): the next occurrence of the
birthday's month/day on or after the current *date* — this year's date,
rolled to next year only if strictly earlier than today. -/
def specNextOcc (b today : Date) : Date :=
  if toOrdinal ⟨today.year, b.month, b.day⟩ < toOrdinal today then
    ⟨today.year + 1, b.month, b.day⟩
  else ⟨today.year, b.month, b.day⟩

/-- Modelled from the spec: the gap in whole days from today to the next
occurrence of the birthday. -/
def gapSpec (b today : Date) : Int :=
  (toOrdinal (specNextOcc b today) : Int) - (toOrdinal today : Int)

/-- Modelled from the spec (claim C3's wording): the strict `DD.MM.YYYY`
pattern — 2-digit zero-padded day, 2-digit zero-padded month, 4-digit
year, dot-separated. -/
def strictDDMMYYYY (s : PyStr) : Bool :=
  match s with
  | [d1, d2, c1, m1, m2, c2, y1, y2, y3, y4] =>
    isDigitChar d1 && isDigitChar d2 && (c1 = '.') && isDigitChar m1 && isDigitChar m2
      && (c2 = '.') && isDigitChar y1 && isDigitChar y2 && isDigitChar y3 && isDigitChar y4
  | _ => false

/-- A 1- or 2-character digit string denoting `n`, with `1 ≤ n ≤ mx`
(the shape accepted by the `%d` / `%m` directives). -/
def fieldRep (t : PyStr) (n mx : Nat) : Prop :=
  t ≠ [] ∧ t.length ≤ 2 ∧ t.all isDigitChar = true ∧ numVal t = n ∧ 1 ≤ n ∧ n ≤ mx

/-- An exactly-4-character digit string denoting `y ≥ 1` (the shape
accepted by `%Y` plus `datetime`'s `MINYEAR` bound). -/
def yearRep (t : PyStr) (y : Nat) : Prop :=
  t.length = 4 ∧ t.all isDigitChar = true ∧ numVal t = y ∧ 1 ≤ y

/-- The amended acceptance condition for `Birthday`: a day field, a dot, a
month field, a dot and a year field, denoting a real calendar date. -/
def specBirthdayPattern (s : PyStr) (dt : Date) : Prop :=
  ∃ ds ms ys, s = ds ++ '.' :: (ms ++ '.' :: ys)
    ∧ fieldRep ds dt.day 31 ∧ fieldRep ms dt.month 12 ∧ yearRep ys dt.year
    ∧ dt.day ≤ daysInMonth dt.year dt.month

/-- The digit character of a value `0..9`. -/
def digitChar : Nat → Char
  | 0 => '0' | 1 => '1' | 2 => '2' | 3 => '3' | 4 => '4'
  | 5 => '5' | 6 => '6' | 7 => '7' | 8 => '8' | _ => '9'

/-- Two-digit zero-padded decimal rendering (for values below 100). -/
def pad2 (n : Nat) : PyStr := [digitChar (n / 10), digitChar (n % 10)]

/-- Four-digit zero-padded decimal rendering (for values below 10000). -/
def pad4 (n : Nat) : PyStr :=
  [digitChar (n / 1000), digitChar (n / 100 % 10), digitChar (n / 10 % 10), digitChar (n % 10)]

/-- Formatting a stored date back to `DD.MM.YYYY` (zero-padded). -/
def formatDate (dt : Date) : PyStr :=
  pad2 dt.day ++ '.' :: (pad2 dt.month ++ '.' :: pad4 dt.year)

/-! ### Helper lemmas: phone-list and dict operations -/

theorem removePhoneList_not_mem {l : List PyStr} {v : PyStr} (h : v ∉ l) :
    removePhoneList l v = l := by
  induction l with
  | nil => rfl
  | cons p rest ih =>
    simp only [List.mem_cons, not_or] at h
    have hpv : ¬p = v := fun hp => h.1 hp.symm
    simp only [removePhoneList, if_neg hpv, ih h.2]

theorem removePhoneList_append {l : List PyStr} {v : PyStr} (h : v ∉ l) :
    removePhoneList (l ++ [v]) v = l := by
  induction l with
  | nil => simp [removePhoneList]
  | cons p rest ih =>
    simp only [List.mem_cons, not_or] at h
    have hpv : ¬p = v := fun hp => h.1 hp.symm
    simp only [List.cons_append, removePhoneList, if_neg hpv]
    exact congrArg (List.cons p) (ih h.2)

theorem editPhoneList_not_mem {l : List PyStr} {old nv : PyStr} (h : old ∉ l) :
    editPhoneList l old nv = l := by
  induction l with
  | nil => rfl
  | cons p rest ih =>
    simp only [List.mem_cons, not_or] at h
    have hpo : ¬p = old := fun hp => h.1 hp.symm
    simp only [editPhoneList, if_neg hpo, ih h.2]

theorem editPhoneList_append {l1 l2 : List PyStr} {old nv : PyStr} (h : old ∉ l1) :
    editPhoneList (l1 ++ old :: l2) old nv = l1 ++ nv :: l2 := by
  induction l1 with
  | nil => simp [editPhoneList]
  | cons p rest ih =>
    simp only [List.mem_cons, not_or] at h
    have hpo : ¬p = old := fun hp => h.1 hp.symm
    simp only [List.cons_append, editPhoneList, if_neg hpo]
    exact congrArg (List.cons p) (ih h.2)

theorem dictGet_dictInsert (l : List (PyStr × Record)) (k : PyStr) (r : Record) :
    dictGet (dictInsert l k r) k = some r := by
  induction l with
  | nil => simp [dictInsert, dictGet]
  | cons p rest ih =>
    obtain ⟨k0, v0⟩ := p
    by_cases hk : k0 = k
    · simp [dictInsert, hk, dictGet]
    · simp [dictInsert, hk, dictGet, ih]

theorem dictGet_eq_none {l : List (PyStr × Record)} {k : PyStr}
    (h : ∀ p ∈ l, p.1 ≠ k) : dictGet l k = none := by
  induction l with
  | nil => rfl
  | cons p rest ih =>
    obtain ⟨k0, v0⟩ := p
    have hk : k0 ≠ k := h (k0, v0) (List.mem_cons_self _ _)
    simp only [dictGet, if_neg hk]
    exact ih (fun q hq => h q (List.mem_cons_of_mem _ hq))

theorem dictGet_dictDel_nodup {l : List (PyStr × Record)} {k : PyStr}
    (h : (l.map Prod.fst).Nodup) : dictGet (dictDel l k) k = none := by
  induction l with
  | nil => rfl
  | cons p rest ih =>
    obtain ⟨k0, v0⟩ := p
    simp only [List.map_cons, List.nodup_cons] at h
    by_cases hk : k0 = k
    · subst hk
      simp only [dictDel, if_pos rfl]
      exact dictGet_eq_none (fun q hq hqk =>
        h.1 (hqk ▸ List.mem_map_of_mem Prod.fst hq))
    · simp only [dictDel, if_neg hk, dictGet, if_neg hk]
      exact ih h.2

theorem dictAny_eq_isSome (l : List (PyStr × Record)) (k : PyStr) :
    (l.any (fun p => p.1 = k)) = (dictGet l k).isSome := by
  induction l with
  | nil => rfl
  | cons p rest ih =>
    obtain ⟨k0, v0⟩ := p
    by_cases hk : k0 = k <;> simp [dictGet, hk, ih]

/-! ### Claims about the field types and Record/AddressBook operations -/

/-- Claim C2: for every string `s`, `Phone(s)` succeeds with `.value == s`
exactly when `s` has exactly 10 characters, all decimal digits; any other
string fails with a `ValidationError` (`ValueError`). -/
theorem claim_C2 (s : PyStr) :
    (s.length = 10 ∧ (∀ c ∈ s, isDigitChar c = true) → mkPhone s = Except.ok s) ∧
    (¬(s.length = 10 ∧ (∀ c ∈ s, isDigitChar c = true)) →
      mkPhone s = Except.error phoneError) := by
  have hiff : phone_validate s = true ↔ (s.length = 10 ∧ ∀ c ∈ s, isDigitChar c = true) := by
    constructor
    · intro hv
      simp only [phone_validate, pyIsdigit, Bool.and_eq_true, beq_iff_eq, Bool.not_eq_true',
        List.all_eq_true] at hv
      exact ⟨hv.2, hv.1.2⟩
    · rintro ⟨hlen, hdig⟩
      have hne : s.isEmpty = false := by
        cases s with
        | nil => simp at hlen
        | cons c t => rfl
      simpa [phone_validate, pyIsdigit, hne, hlen, List.all_eq_true] using hdig
  constructor
  · intro h
    simp [mkPhone, hiff.mpr h]
  · intro h
    have hv : phone_validate s = false := by
      cases hv : phone_validate s
      · rfl
      · exact absurd (hiff.mp hv) h
    simp [mkPhone, hv]

/-- Witness for C2: a valid 10-digit phone is accepted unchanged, and a
too-short one is rejected with the `ValueError`. -/
theorem claim_C2_witness :
    mkPhone "0501234567".toList = Except.ok "0501234567".toList ∧
    mkPhone "12345".toList = Except.error phoneError :=
  ⟨(claim_C2 _).1 (by decide), (claim_C2 _).2 (by decide)⟩

/-- Claim C4 (the code violates it): with a Feb 29 birthday on file and a
non-leap current year, `birthday.value.replace(year=today.year)` raises
`ValueError` (modelled as `none`), so `get_upcoming_birthdays` fails
instead of resolving the birthday to a valid date. -/
theorem claim_C4 :
    getUpcomingBirthdays ⟨[("Bob".toList, ⟨"Bob".toList, [], some ⟨2000, 2, 29⟩⟩)]⟩
      ⟨2023, 2, 1⟩ 0 7 = none := by decide

/-- Claim C5: `edit_phone(old, new)` replaces in place the stored value of
the first phone equal to `old` with `new` — an arbitrary, unvalidated
string — leaving every other phone, the name and the birthday unchanged,
and is a silent no-op when no phone equals `old`. -/
theorem claim_C5 (r : Record) (old nv : PyStr) :
    (old ∉ r.phones → editPhone r old nv = r) ∧
    (∀ l1 l2, r.phones = l1 ++ old :: l2 → old ∉ l1 →
      editPhone r old nv = { r with phones := l1 ++ nv :: l2 }) := by
  constructor
  · intro h
    simp [editPhone, editPhoneList_not_mem h]
  · intro l1 l2 hsplit h1
    simp [editPhone, hsplit, editPhoneList_append h1]

/-- Witness for C5: the first matching phone is replaced by an arbitrary
string, and an absent `old` value leaves the record untouched. -/
theorem claim_C5_witness :
    editPhone ⟨"A".toList, ["0501234567".toList, "0991234567".toList], none⟩
        "0991234567".toList "xyz".toList
      = ⟨"A".toList, ["0501234567".toList, "xyz".toList], none⟩ ∧
    editPhone ⟨"A".toList, ["0501234567".toList], none⟩ "0661112233".toList "xyz".toList
      = ⟨"A".toList, ["0501234567".toList], none⟩ :=
  ⟨(claim_C5 _ _ _).2 ["0501234567".toList] [] (by decide) (by decide),
   (claim_C5 _ _ _).1 (by decide)⟩

/-- Counterexample to claim C6 as stated: with prior phones `[a, b]`
already containing `a`, `add_phone(a)` then `remove_phone(a)` yields
`[b, a]`, not the prior list `[a, b]` — `remove_phone` drops the earlier
occurrence, so the order is not restored. -/
theorem claim_C6_counterexample :
    (addPhoneS ⟨"A".toList, ["0501234567".toList, "0991234567".toList], none⟩
        "0501234567".toList).1 = Except.ok () ∧
    removePhone (addPhoneS ⟨"A".toList, ["0501234567".toList, "0991234567".toList], none⟩
        "0501234567".toList).2 "0501234567".toList
      ≠ ⟨"A".toList, ["0501234567".toList, "0991234567".toList], none⟩ :=
  ⟨rfl, by decide⟩

/-- Claim C6 (amended): for a valid 10-digit value `v` that is not already
among the record's phones, `add_phone(v)` succeeds and a following
`remove_phone(v)` returns the record to its prior phone list; and
`remove_phone(v)` alone is a silent no-op when no phone equals `v`. -/
theorem claim_C6 (r : Record) (v : PyStr) (hval : phone_validate v = true)
    (hmem : v ∉ r.phones) :
    (addPhoneS r v).1 = Except.ok () ∧
    removePhone (addPhoneS r v).2 v = r ∧
    removePhone r v = r := by
  have hadd : addPhoneS r v = (Except.ok (), { r with phones := r.phones ++ [v] }) := by
    simp [addPhoneS, mkPhone, hval]
  refine ⟨by rw [hadd], ?_, ?_⟩
  · rw [hadd]
    simp [removePhone, removePhoneList_append hmem]
  · simp [removePhone, removePhoneList_not_mem hmem]

/-- Witness for C6: adding then removing a fresh valid phone restores the
one-phone record, and removing an absent phone is a no-op. -/
theorem claim_C6_witness :
    (addPhoneS ⟨"A".toList, ["0991234567".toList], none⟩ "0501234567".toList).1
      = Except.ok () ∧
    removePhone (addPhoneS ⟨"A".toList, ["0991234567".toList], none⟩ "0501234567".toList).2
        "0501234567".toList = ⟨"A".toList, ["0991234567".toList], none⟩ ∧
    removePhone ⟨"A".toList, ["0991234567".toList], none⟩ "0501234567".toList
      = ⟨"A".toList, ["0991234567".toList], none⟩ :=
  claim_C6 _ _ (by decide) (by decide)

/-- Claim C7: `add_record(r)` stores `r` under `r`'s name, silently
replacing any existing entry with that key (last-write-wins, no merge),
and `find_record` with that name then returns `r` itself — in particular
a record equal to `r` in name and phone list. -/
theorem claim_C7 (book : AddressBook) (r : Record) :
    findRecord (addRecord book r) r.name = some r :=
  dictGet_dictInsert book.records r.name r

/-- Claim C8: `remove_record(name)` deletes the entry for `name` when
present and is a no-op otherwise, and in either case a subsequent
`find_record(name)` returns the not-found indicator (`None`).  The
hypothesis states the dict invariant that keys are unique. -/
theorem claim_C8 (book : AddressBook) (name : PyStr)
    (h : (book.records.map Prod.fst).Nodup) :
    findRecord (removeRecord book name) name = none ∧
    (findRecord book name = none → removeRecord book name = book) := by
  constructor
  · rw [removeRecord]
    split
    · exact dictGet_dictDel_nodup h
    · rename_i hc
      have hb : (dictGet book.records name).isSome = false := by
        rw [← dictAny_eq_isSome]
        exact Bool.not_eq_true _ ▸ hc
      rw [findRecord]
      exact Option.not_isSome_iff_eq_none.mp (by simp [hb])
  · intro hnone
    rw [removeRecord, if_neg]
    rw [dictAny_eq_isSome, findRecord] at *
    simp [hnone]

/-- Witness for C8: removing the only record makes lookup fail, and
removing an absent name leaves the book unchanged. -/
theorem claim_C8_witness :
    findRecord (removeRecord ⟨[("Alice".toList, ⟨"Alice".toList, ["0501234567".toList], none⟩)]⟩
        "Alice".toList) "Alice".toList = none ∧
    removeRecord ⟨[("Alice".toList, ⟨"Alice".toList, ["0501234567".toList], none⟩)]⟩
        "Bob".toList
      = ⟨[("Alice".toList, ⟨"Alice".toList, ["0501234567".toList], none⟩)]⟩ :=
  ⟨(claim_C8 _ _ (by decide)).1, (claim_C8 _ "Bob".toList (by decide)).2 (by decide)⟩

/-- Claim C9: a failed `add_phone` (invalid phone value) or `add_birthday`
(malformed date string) raises while evaluating the new field value,
before any mutation: the returned record state — phone list and stored
birthday — is exactly the prior record. -/
theorem claim_C9 (r : Record) (v w : PyStr) :
    (phone_validate v = false → addPhoneS r v = (Except.error phoneError, r)) ∧
    (birthdayParse w = none → addBirthdayS r w = (Except.error birthdayError, r)) := by
  constructor
  · intro h
    simp [addPhoneS, mkPhone, h]
  · intro h
    simp [addBirthdayS, h]

/-- Witness for C9: a 5-digit phone and the non-date `31.02.2024` are both
rejected with the record returned untouched. -/
theorem claim_C9_witness :
    addPhoneS ⟨"A".toList, ["0501234567".toList], none⟩ "12345".toList
      = (Except.error phoneError, ⟨"A".toList, ["0501234567".toList], none⟩) ∧
    addBirthdayS ⟨"A".toList, ["0501234567".toList], none⟩ "31.02.2024".toList
      = (Except.error birthdayError, ⟨"A".toList, ["0501234567".toList], none⟩) :=
  ⟨(claim_C9 _ _ "x".toList).1 (by decide), (claim_C9 _ "x".toList _).2 (by decide)⟩

/-- Claim C10: the query operations `find_record`, `list_records` and
`get_upcoming_birthdays` never modify the address book — their bodies
contain no assignment to the record mapping, so the post-call state
equals the pre-call state exactly. -/
theorem claim_C10 (book : AddressBook) (name : PyStr) (today : Date) (sec : Nat) (days : Int) :
    (findRecordS book name).2 = book ∧ (listRecordsS book).2 = book ∧
    (getUpcomingBirthdaysS book today sec days).2 = book :=
  ⟨rfl, rfl, rfl⟩

/-! ### Claim C1: the birthday window -/

theorem nextBirthdayCode_midnight {b today nb : Date}
    (h : nextBirthdayCode b today 0 = some nb) : nb = specNextOcc b today := by
  unfold nextBirthdayCode at h
  cases hr : replaceYear b today.year with
  | none =>
    simp only [hr] at h
    exact Option.noConfusion h
  | some nb0 =>
    simp only [hr] at h
    have hnb0 : nb0 = ⟨today.year, b.month, b.day⟩ := by
      unfold replaceYear at hr
      split at hr
      · exact (Option.some.inj hr).symm
      · exact absurd hr (by simp)
    subst hnb0
    by_cases hlt : toOrdinal ⟨today.year, b.month, b.day⟩ < toOrdinal today
    · have hlt1 : toOrdinal (⟨today.year, b.month, b.day⟩ : Date) * 86400
          < toOrdinal today * 86400 + 0 := by omega
      rw [if_pos hlt1] at h
      unfold replaceYear at h
      split at h
      · rw [specNextOcc, if_pos hlt]
        exact (Option.some.inj h).symm
      · exact absurd h (by simp)
    · have hlt1 : ¬toOrdinal (⟨today.year, b.month, b.day⟩ : Date) * 86400
          < toOrdinal today * 86400 + 0 := by omega
      rw [if_neg hlt1] at h
      rw [specNextOcc, if_neg hlt]
      exact (Option.some.inj h).symm

theorem gapDays_midnight (nb today : Date) :
    gapDays nb today 0 = (toOrdinal nb : Int) - (toOrdinal today : Int) := by
  unfold gapDays
  simp only [Nat.cast_zero, add_zero]
  have hnum : (toOrdinal nb : Int) * 86400 - (toOrdinal today : Int) * 86400
      = ((toOrdinal nb : Int) - (toOrdinal today : Int)) * 86400 := by ring
  rw [hnum, Int.mul_fdiv_cancel _ (by norm_num)]

theorem upcomingAux_midnight_mem (today : Date) (days : Int) :
    ∀ (rs l : List Record), upcomingAux today 0 days rs = some l →
      ∀ r, r ∈ l ↔ r ∈ rs ∧ ∃ b, r.birthday = some b ∧
        0 ≤ gapSpec b today ∧ gapSpec b today < days := by
  intro rs
  induction rs with
  | nil =>
    intro l h r
    simp only [upcomingAux] at h
    injection h with h
    subst h
    simp
  | cons hd tl ih =>
    intro l h r
    cases hb : hd.birthday with
    | none =>
      simp only [upcomingAux, hb] at h
      rw [ih l h r, List.mem_cons]
      constructor
      · rintro ⟨htl, b, hbb, hg⟩
        exact ⟨Or.inr htl, b, hbb, hg⟩
      · rintro ⟨rfl | htl, b, hbb, hg⟩
        · rw [hb] at hbb
          cases hbb
        · exact ⟨htl, b, hbb, hg⟩
    | some b =>
      simp only [upcomingAux, hb] at h
      cases hnb : nextBirthdayCode b today 0 with
      | none =>
        simp only [hnb] at h
        exact Option.noConfusion h
      | some nb =>
        simp only [hnb] at h
        cases htl : upcomingAux today 0 days tl with
        | none =>
          simp only [htl] at h
          exact Option.noConfusion h
        | some tail =>
          simp only [htl] at h
          have hnbspec := nextBirthdayCode_midnight hnb
          have hcond : (0 ≤ gapDays nb today 0 ∧ gapDays nb today 0 < days) ↔
              (0 ≤ gapSpec b today ∧ gapSpec b today < days) := by
            rw [gapDays_midnight, hnbspec, gapSpec]
          by_cases hc : 0 ≤ gapSpec b today ∧ gapSpec b today < days
          · rw [if_pos (hcond.mpr hc)] at h
            injection h with h
            subst h
            rw [List.mem_cons, ih tail htl r, List.mem_cons]
            constructor
            · rintro (rfl | ⟨htl2, hP⟩)
              · exact ⟨Or.inl rfl, b, hb, hc⟩
              · exact ⟨Or.inr htl2, hP⟩
            · rintro ⟨rfl | htl2, hP⟩
              · exact Or.inl rfl
              · exact Or.inr ⟨htl2, hP⟩
          · rw [if_neg (fun hx => hc (hcond.mp hx))] at h
            injection h with h
            subst h
            rw [ih tail htl r, List.mem_cons]
            constructor
            · rintro ⟨htl2, hP⟩
              exact ⟨Or.inr htl2, hP⟩
            · rintro ⟨rfl | htl2, hP⟩
              · obtain ⟨b2, hbb2, hg2⟩ := hP
                rw [hb] at hbb2
                cases hbb2
                exact absurd hg2 hc
              · exact ⟨htl2, hP⟩

/-- Claim C1 (amended): when the current time-of-day is exactly midnight,
a record is returned by `get_upcoming_birthdays(days)` exactly when it is
in the book, has a birthday, and the gap in whole days from today to the
next occurrence of that birthday's month/day — this year's date, rolled
to next year only if strictly earlier than today, so a birthday falling
on the current day counts as occurring today with gap 0 — satisfies
`0 <= gap < days`.  At any later time of day the code compares the
midnight occurrence against the full current datetime, so a birthday on
the current day rolls to next year and fractional-day gaps are floored
(see the counterexample). -/
theorem claim_C1 (book : AddressBook) (today : Date) (days : Int) (l : List Record)
    (h : getUpcomingBirthdays book today 0 days = some l) (r : Record) :
    r ∈ l ↔ r ∈ listRecords book ∧ ∃ b, r.birthday = some b ∧
      0 ≤ gapSpec b today ∧ gapSpec b today < days :=
  upcomingAux_midnight_mem today days (listRecords book) l h r

/-- Witness for C1: Bob has birthday `15.03.1990`; today is `10.03.2024`
at midnight, window 7: `get_upcoming_birthdays(7)` succeeds, and the
equivalence instantiates with Bob included (gap 5). -/
theorem claim_C1_witness :
    (⟨"Bob".toList, [], some ⟨1990, 3, 15⟩⟩ : Record)
        ∈ [(⟨"Bob".toList, [], some ⟨1990, 3, 15⟩⟩ : Record)] ↔
      (⟨"Bob".toList, [], some ⟨1990, 3, 15⟩⟩ : Record)
          ∈ listRecords ⟨[("Bob".toList, ⟨"Bob".toList, [], some ⟨1990, 3, 15⟩⟩)]⟩ ∧
        ∃ b, (⟨"Bob".toList, [], some ⟨1990, 3, 15⟩⟩ : Record).birthday = some b ∧
          0 ≤ gapSpec b ⟨2024, 3, 10⟩ ∧ gapSpec b ⟨2024, 3, 10⟩ < 7 :=
  claim_C1 _ ⟨2024, 3, 10⟩ 7 _ (by decide) _

/-- Counterexample to claim C1 as stated: Bob's birthday is `15.03.1990`
and now is `15.03.2024` at 12:00 (43200 seconds after midnight).  The
claimed rule gives gap 0, within the window `days = 7`, so Bob should be
included; but the code compares the midnight datetime 15.03.2024 against
the current datetime, finds it strictly earlier, rolls the birthday to
15.03.2025, and returns the empty list. -/
theorem claim_C1_counterexample :
    getUpcomingBirthdays ⟨[("Bob".toList, ⟨"Bob".toList, [], some ⟨1990, 3, 15⟩⟩)]⟩
        ⟨2024, 3, 15⟩ 43200 7 = some [] ∧
    0 ≤ gapSpec ⟨1990, 3, 15⟩ ⟨2024, 3, 15⟩ ∧ gapSpec ⟨1990, 3, 15⟩ ⟨2024, 3, 15⟩ < 7 := by
  decide

/-! ### Claim C3: the Birthday format -/

/-- Join a list of parts with a dot between consecutive parts. -/
def joinDots : List PyStr → PyStr
  | [] => []
  | [x] => x
  | x :: xs => x ++ '.' :: joinDots xs

theorem splitDots_ne_nil (s : PyStr) : splitDots s ≠ [] := by
  induction s with
  | nil => simp [splitDots]
  | cons c rest ih =>
    by_cases hc : c = '.'
    · simp [splitDots, hc]
    · simp only [splitDots, if_neg hc]
      cases hr : splitDots rest with
      | nil => simp
      | cons h t => simp

theorem joinDots_splitDots (s : PyStr) : joinDots (splitDots s) = s := by
  induction s with
  | nil => rfl
  | cons c rest ih =>
    by_cases hc : c = '.'
    · subst hc
      simp only [splitDots, if_pos rfl]
      cases hr : splitDots rest with
      | nil => exact absurd hr (splitDots_ne_nil rest)
      | cons h t =>
        rw [hr] at ih
        cases t with
        | nil =>
          simp only [joinDots] at ih
          simp only [joinDots, List.nil_append]
          rw [ih]
        | cons t1 ts =>
          simp only [joinDots] at ih
          simp only [joinDots, List.nil_append]
          rw [ih]
    · simp only [splitDots, if_neg hc]
      cases hr : splitDots rest with
      | nil => exact absurd hr (splitDots_ne_nil rest)
      | cons h t =>
        rw [hr] at ih
        cases t with
        | nil =>
          simp only [joinDots] at ih ⊢
          rw [ih]
        | cons t1 ts =>
          simp only [joinDots, List.cons_append] at ih ⊢
          rw [ih]

theorem splitDots_parts_no_dot (s : PyStr) : ∀ p ∈ splitDots s, '.' ∉ p := by
  induction s with
  | nil =>
    intro p hp
    simp only [splitDots, List.mem_singleton] at hp
    subst hp
    simp
  | cons c rest ih =>
    intro p hp
    by_cases hc : c = '.'
    · subst hc
      simp only [splitDots, eq_self_iff_true, if_true, List.mem_cons] at hp
      rcases hp with rfl | hp
      · simp
      · exact ih p hp
    · cases hr : splitDots rest with
      | nil => exact absurd hr (splitDots_ne_nil rest)
      | cons h t =>
        simp only [splitDots, if_neg hc, hr] at hp
        simp only [List.mem_cons] at hp
        rcases hp with rfl | hp
        · intro hdot
          rcases List.mem_cons.mp hdot with h1 | h2
          · exact hc h1.symm
          · exact ih h (by rw [hr]; exact List.mem_cons_self h t) h2
        · exact ih p (by rw [hr]; exact List.mem_cons_of_mem _ hp)

theorem splitDots_of_no_dot {a : PyStr} (h : '.' ∉ a) : splitDots a = [a] := by
  induction a with
  | nil => rfl
  | cons c rest ih =>
    simp only [List.mem_cons, not_or] at h
    have hc : ¬c = '.' := fun hcc => h.1 hcc.symm
    simp only [splitDots, if_neg hc, ih h.2]

theorem splitDots_append {a : PyStr} (t : PyStr) (h : '.' ∉ a) :
    splitDots (a ++ '.' :: t) = a :: splitDots t := by
  induction a with
  | nil => simp [splitDots]
  | cons c rest ih =>
    simp only [List.mem_cons, not_or] at h
    have hc : ¬c = '.' := fun hcc => h.1 hcc.symm
    simp only [List.cons_append, List.append_eq, splitDots, if_neg hc, ih h.2]

theorem no_dot_of_digits {t : PyStr} (h : t.all isDigitChar = true) : '.' ∉ t :=
  fun hm => absurd (List.all_eq_true.mp h _ hm) (by decide)

theorem digit_char_bounds {c : Char} (h : isDigitChar c = true) :
    48 ≤ c.toNat ∧ c.toNat ≤ 57 := by
  simpa [isDigitChar] using h

theorem char_toNat_inj {c1 c2 : Char} (h : c1.toNat = c2.toNat) : c1 = c2 := by
  have h1 := Char.ofNat_toNat c1
  have h2 := Char.ofNat_toNat c2
  rw [← h1, ← h2, h]

theorem numVal_lt (t : PyStr) (h : t.all isDigitChar = true) :
    numVal t < 10 ^ t.length := by
  induction t with
  | nil => simp [numVal]
  | cons c rest ih =>
    simp only [List.all_cons, Bool.and_eq_true] at h
    have hc := digit_char_bounds h.1
    have hr := ih h.2
    simp only [numVal, List.length_cons, pow_succ]
    have hv : c.toNat - 48 ≤ 9 := by omega
    calc (c.toNat - 48) * 10 ^ rest.length + numVal rest
        < (c.toNat - 48) * 10 ^ rest.length + 10 ^ rest.length := by omega
    _ = (c.toNat - 48 + 1) * 10 ^ rest.length := by ring
    _ ≤ 10 * 10 ^ rest.length := Nat.mul_le_mul_right _ (by omega)
    _ = 10 ^ rest.length * 10 := by ring

theorem base_split {q1 q2 a b K : Nat} (ha : a < K) (hb : b < K)
    (h : q1 * K + a = q2 * K + b) : q1 = q2 ∧ a = b := by
  have hq : q1 = q2 := by
    rcases Nat.lt_trichotomy q1 q2 with h1 | h1 | h1
    · have h2 : (q1 + 1) * K ≤ q2 * K := Nat.mul_le_mul_right K h1
      simp only [Nat.add_mul, one_mul] at h2
      omega
    · exact h1
    · have h2 : (q2 + 1) * K ≤ q1 * K := Nat.mul_le_mul_right K h1
      simp only [Nat.add_mul, one_mul] at h2
      omega
  subst hq
  omega

theorem numVal_inj : ∀ t1 t2 : PyStr, t1.all isDigitChar = true → t2.all isDigitChar = true →
    t1.length = t2.length → numVal t1 = numVal t2 → t1 = t2 := by
  intro t1
  induction t1 with
  | nil =>
    intro t2 _ _ hlen _
    cases t2 with
    | nil => rfl
    | cons c2 r2 => simp at hlen
  | cons c1 r1 ih =>
    intro t2 h1 h2 hlen hval
    cases t2 with
    | nil => simp at hlen
    | cons c2 r2 =>
      simp only [List.all_cons, Bool.and_eq_true] at h1 h2
      simp only [List.length_cons, Nat.add_right_cancel_iff] at hlen
      simp only [numVal, hlen] at hval
      obtain ⟨hq, hrest⟩ :=
        base_split (hlen ▸ numVal_lt r1 h1.2) (numVal_lt r2 h2.2) hval
      have hb1 := digit_char_bounds h1.1
      have hb2 := digit_char_bounds h2.1
      have hc : c1 = c2 := char_toNat_inj (by omega)
      rw [hc, ih r2 h1.2 h2.2 hlen hrest]

theorem digitChar_toNat {k : Nat} (h : k < 10) : (digitChar k).toNat = 48 + k := by
  interval_cases k <;> rfl

theorem digitChar_isDigit {k : Nat} (h : k < 10) : isDigitChar (digitChar k) = true := by
  interval_cases k <;> rfl

theorem pad2_spec {n : Nat} (h : n < 100) :
    (pad2 n).all isDigitChar = true ∧ (pad2 n).length = 2 ∧ numVal (pad2 n) = n := by
  have h1 : n / 10 < 10 := by omega
  have h2 : n % 10 < 10 := by omega
  refine ⟨?_, rfl, ?_⟩
  · simp [pad2, digitChar_isDigit h1, digitChar_isDigit h2]
  · simp only [pad2, numVal, List.length_cons, List.length_nil,
      digitChar_toNat h1, digitChar_toNat h2, pow_one, pow_zero]
    omega

theorem pad4_spec {n : Nat} (h : n < 10000) :
    (pad4 n).all isDigitChar = true ∧ (pad4 n).length = 4 ∧ numVal (pad4 n) = n := by
  have h1 : n / 1000 < 10 := by omega
  have h2 : n / 100 % 10 < 10 := by omega
  have h3 : n / 10 % 10 < 10 := by omega
  have h4 : n % 10 < 10 := by omega
  refine ⟨?_, rfl, ?_⟩
  · simp [pad4, digitChar_isDigit h1, digitChar_isDigit h2, digitChar_isDigit h3,
      digitChar_isDigit h4]
  · simp only [pad4, numVal, List.length_cons, List.length_nil,
      digitChar_toNat h1, digitChar_toNat h2, digitChar_toNat h3, digitChar_toNat h4]
    norm_num
    omega

theorem fieldNum_eq_some {t : PyStr} {n mx : Nat} (h : fieldNum t mx = some n) :
    fieldRep t n mx := by
  unfold fieldNum at h
  split at h
  · rename_i hc
    injection h with h
    subst h
    obtain ⟨hdig, hlen, h1, h2⟩ := hc
    have hne : t ≠ [] := by
      intro hnil
      subst hnil
      rcases hlen with h | h <;> simp at h
    have hle : t.length ≤ 2 := by rcases hlen with h | h <;> omega
    exact ⟨hne, hle, hdig, rfl, h1, h2⟩
  · exact Option.noConfusion h

theorem fieldNum_of_rep {t : PyStr} {n mx : Nat} (h : fieldRep t n mx) :
    fieldNum t mx = some n := by
  obtain ⟨hne, hle, hdig, hval, h1, h2⟩ := h
  have hlen : t.length = 1 ∨ t.length = 2 := by
    have := List.length_pos.mpr hne
    omega
  unfold fieldNum
  rw [if_pos ⟨hdig, hlen, by rw [hval]; exact h1, by rw [hval]; exact h2⟩, hval]

theorem yearNum_eq_some {t : PyStr} {y : Nat} (h : yearNum t = some y) : yearRep t y := by
  unfold yearNum at h
  split at h
  · rename_i hc
    injection h with h
    subst h
    exact ⟨hc.2.1, hc.1, rfl, hc.2.2⟩
  · exact Option.noConfusion h

theorem yearNum_of_rep {t : PyStr} {y : Nat} (h : yearRep t y) : yearNum t = some y := by
  obtain ⟨hlen, hdig, hval, h1⟩ := h
  unfold yearNum
  rw [if_pos ⟨hdig, hlen, by rw [hval]; exact h1⟩, hval]

theorem birthdayParse_sound {s : PyStr} {dt : Date} (h : birthdayParse s = some dt) :
    specBirthdayPattern s dt := by
  unfold birthdayParse at h
  split at h
  · rename_i ds ms ys heq
    split at h
    · rename_i d m y hfd hfm hfy
      split at h
      · rename_i hcal
        injection h with h
        subst h
        refine ⟨ds, ms, ys, ?_, fieldNum_eq_some hfd, fieldNum_eq_some hfm,
          yearNum_eq_some hfy, hcal⟩
        have hj := joinDots_splitDots s
        rw [heq] at hj
        simpa [joinDots] using hj.symm
      · exact Option.noConfusion h
    · exact Option.noConfusion h
  · exact Option.noConfusion h

theorem birthdayParse_complete {s : PyStr} {dt : Date} (h : specBirthdayPattern s dt) :
    birthdayParse s = some dt := by
  obtain ⟨ds, ms, ys, hs, hd, hm, hy, hcal⟩ := h
  have hds : '.' ∉ ds := no_dot_of_digits hd.2.2.1
  have hms : '.' ∉ ms := no_dot_of_digits hm.2.2.1
  have hys : '.' ∉ ys := no_dot_of_digits hy.2.1
  subst hs
  unfold birthdayParse
  rw [splitDots_append _ hds, splitDots_append _ hms, splitDots_of_no_dot hys]
  simp only [fieldNum_of_rep hd, fieldNum_of_rep hm, yearNum_of_rep hy]
  rw [if_pos hcal]

theorem birthdayParse_format {s : PyStr} {dt : Date} (h : birthdayParse s = some dt)
    (hlen : s.length = 10) : formatDate dt = s := by
  obtain ⟨ds, ms, ys, hs, hd, hm, hy, hcal⟩ := birthdayParse_sound h
  obtain ⟨hdne, hdle, hddig, hdval, hd1, hd31⟩ := hd
  obtain ⟨hmne, hmle, hmdig, hmval, hm1, hm12⟩ := hm
  obtain ⟨hy4, hydig, hyval, hy1⟩ := hy
  subst hs
  simp only [List.length_append, List.length_cons, hy4] at hlen
  have hds1 : 0 < ds.length := List.length_pos.mpr hdne
  have hms1 : 0 < ms.length := List.length_pos.mpr hmne
  have hds2 : ds.length = 2 := by omega
  have hms2 : ms.length = 2 := by omega
  have hylt : dt.year < 10000 := by
    have hv := numVal_lt ys hydig
    rw [hyval, hy4] at hv
    norm_num at hv
    exact hv
  have e1 : pad2 dt.day = ds := by
    obtain ⟨pa, pl, pv⟩ := pad2_spec (show dt.day < 100 by omega)
    exact numVal_inj _ _ pa hddig (by rw [pl, hds2]) (by rw [pv, hdval])
  have e2 : pad2 dt.month = ms := by
    obtain ⟨pa, pl, pv⟩ := pad2_spec (show dt.month < 100 by omega)
    exact numVal_inj _ _ pa hmdig (by rw [pl, hms2]) (by rw [pv, hmval])
  have e3 : pad4 dt.year = ys := by
    obtain ⟨pa, pl, pv⟩ := pad4_spec hylt
    exact numVal_inj _ _ pa hydig (by rw [pl, hy4]) (by rw [pv, hyval])
  rw [formatDate, e1, e2, e3]

/-- Claim C3 (amended): `Birthday(s)` succeeds exactly when `s` is
day.month.year with a 1- or 2-digit day (value fitting the `%d` pattern,
1–31), a 1- or 2-digit month (1–12), and an exactly-4-digit year
`≥ 0001`, denoting a real calendar date — zero-padding of day and month
is accepted but not required by `strptime`; when `s` is fully zero-padded
(the 10-character `DD.MM.YYYY` form), formatting the stored date back to
`DD.MM.YYYY` reproduces `s` exactly; any other format or invalid
calendar date fails with a `ValidationError` (`ValueError`). -/
theorem claim_C3 (s : PyStr) (dt : Date) :
    (mkBirthday s = Except.ok dt ↔ specBirthdayPattern s dt) ∧
    (mkBirthday s = Except.ok dt → s.length = 10 → formatDate dt = s) := by
  have hok : mkBirthday s = Except.ok dt ↔ birthdayParse s = some dt := by
    unfold mkBirthday
    cases hp : birthdayParse s <;> simp
  constructor
  · rw [hok]
    exact ⟨birthdayParse_sound, birthdayParse_complete⟩
  · intro h hlen
    exact birthdayParse_format (hok.mp h) hlen

/-- Witness for C3: `"15.03.1990"` parses successfully, and formatting the
stored date reproduces the input exactly. -/
theorem claim_C3_witness :
    formatDate ⟨1990, 3, 15⟩ = "15.03.1990".toList :=
  (claim_C3 "15.03.1990".toList ⟨1990, 3, 15⟩).2 (by rfl) (by rfl)

/-- Counterexample to claim C3 as stated: `"5.3.1990"` does not match the
fixed zero-padded `DD.MM.YYYY` pattern, yet `Birthday("5.3.1990")`
succeeds (the `%d` and `%m` directives of `strptime` also accept
unpadded 1-digit fields), storing 5 March 1990. -/
theorem claim_C3_counterexample :
    birthdayParse "5.3.1990".toList = some ⟨1990, 3, 5⟩ ∧
    strictDDMMYYYY "5.3.1990".toList = false := ⟨rfl, rfl⟩
